import Mathlib

/-!
Shallow embedding of the `sub` subcommand-dispatch library (DeedleFake/sub,
file `sub.go`) and proofs about it.

The embedding models:
  * `Commander` with its `Help` text, optional global-flag declarator
    (`Flags`), captured invocation `name`, and sorted `commands` registry;
  * `Commander.Register` including the `sort.Search` binary search it uses;
  * the Go standard `flag` package behavior that the library consumes
    (string-valued flags declared with `StringVar`, `ContinueOnError`
    semantics: stop at the first non-flag token, `--` terminator,
    `flag.ErrHelp` for an undefined `-h`/`-help`/`--help`, parse errors for
    undefined flags / missing values / bad syntax, and `PrintDefaults`
    rendering);
  * `helpCmd.Run` (summary and detail help rendering) and `Commander.Run`
    (two-phase parse, lookup, dispatch).

Output written to the Commander's output sink is modelled as a returned
`String`; invocation of a command's `Run` method is recorded in an
`executed` trace; Go's `error` results are modelled as `Option GoError`
(`none` = nil). Character-level string operations coincide with Go's
byte-level ones on ASCII data, which is all the library's literals use.
-/

namespace Sub

/-! ### Strings: Go-style comparison, trimming, quoting -/

/-- Lexicographic comparison of character lists, as Go compares the bytes of
a string (the char-wise order coincides with Go's byte-wise order on ASCII). -/
def charsLt : List Char → List Char → Bool
  | [], [] => false
  | [], _ :: _ => true
  | _ :: _, [] => false
  | a :: as, b :: bs => if a = b then charsLt as bs else decide (a < b)

/-- Go's `<` on strings. -/
def strLt (a b : String) : Bool := charsLt a.data b.data

/-- Go's `<=` on strings (total order: `a <= b` iff not `b < a`). -/
def strLe (a b : String) : Bool := !(strLt b a)

/-- ASCII part of `unicode.IsSpace`, used by `strings.TrimSpace`. -/
def isSpaceChar (c : Char) : Bool :=
  c == ' ' || c == '\t' || c == '\n' || c == '\x0b' || c == '\x0c' || c == '\r'

/-- `strings.TrimSpace`: drop leading and trailing whitespace. -/
def trimSpace (s : String) : String :=
  String.mk (((s.data.dropWhile isSpaceChar).reverse.dropWhile isSpaceChar).reverse)

/-- Concatenation of a list of strings (output fragments written in order). -/
def joinStr : List String → String
  | [] => ""
  | s :: rest => s ++ joinStr rest

/-- One character of `strconv.Quote` (the `%q` verb), for the escapes that
can occur in command names and flag defaults here. -/
def quoteChar (c : Char) : String :=
  if c = '"' then "\\\""
  else if c = '\\' then "\\\\"
  else if c = '\n' then "\\n"
  else if c = '\t' then "\\t"
  else if c = '\r' then "\\r"
  else String.mk [c]

/-- Go's `%q` formatting of a string. -/
def goQuote (s : String) : String :=
  "\"" ++ joinStr (s.data.map quoteChar) ++ "\""

/-! ### The flag package model -/

/-- A string-valued flag declaration, as made by `flag.FlagSet.StringVar`:
a name, a default value and a usage string. -/
structure Flag where
  name : String
  defVal : String
  usage : String
deriving DecidableEq, Repr

/-- Go `error` values that arise in this library: `flag.ErrHelp`, the flag
package's parse errors, and arbitrary errors produced by a command's `Run`. -/
inductive GoError where
  | errHelp
  | badFlag (tok : String)
  | notDefined (nm : String)
  | needsArg (nm : String)
  | custom (msg : String)
deriving DecidableEq, Repr

/-- Whether `parseOne` treats token `s` as a flag:
Go stops when `len(s) < 2 || s[0] != '-'`. -/
def isFlagToken (s : String) : Bool :=
  decide (2 ≤ s.data.length) && decide (s.data.head? = some '-')

/-- Whether the flag set declares a flag named `nm`. -/
def hasFlagNamed (fs : List Flag) (nm : String) : Bool :=
  fs.any (fun f => f.name == nm)

/-- Split a flag body at the first `=` (Go's `name=value` detection inside
`parseOne`; the leading character is already known not to be `=`). -/
def breakEq : List Char → List Char × Option (List Char)
  | [] => ([], none)
  | c :: rest =>
    if c = '=' then ([], some rest)
    else
      let (nm, v) := breakEq rest
      (c :: nm, v)

/-- Result of one `parseOne` step of `flag.FlagSet.Parse`. -/
inductive Step where
  | stop (rest : List String)
  | fail (e : GoError)
  | more (rest : List String)
deriving Repr

/-- One step of `flag.FlagSet.Parse` (`parseOne`) on the token `s` with the
remaining tokens `rest`, against the declared string flags `fs`. -/
def parseStep (fs : List Flag) (s : String) (rest : List String) : Step :=
  let cs := s.data
  if ¬ isFlagToken s then
    .stop (s :: rest)
  else if cs.get? 1 = some '-' ∧ cs.length = 2 then
    .stop rest
  else
    let nameCs := if cs.get? 1 = some '-' then cs.drop 2 else cs.drop 1
    if nameCs.length = 0 ∨ nameCs.head? = some '-' ∨ nameCs.head? = some '=' then
      .fail (.badFlag s)
    else
      let nm : String := String.mk (breakEq nameCs).1
      if hasFlagNamed fs nm then
        match (breakEq nameCs).2 with
        | some _ => .more rest
        | none =>
          match rest with
          | _ :: rest' => .more rest'
          | [] => .fail (.needsArg nm)
      else if nm = "help" ∨ nm = "h" then .fail .errHelp
      else .fail (.notDefined nm)

/-- `flag.FlagSet.Parse` loop; every `.more` step consumes at least one
token, so fuel equal to the argument count covers the whole loop. -/
def parseArgsFuel (fs : List Flag) : Nat → List String → Except GoError (List String)
  | _, [] => .ok []
  | 0, args => .ok args
  | fuel + 1, s :: rest =>
    match parseStep fs s rest with
    | .stop r => .ok r
    | .fail e => .error e
    | .more r => parseArgsFuel fs fuel r

/-- `flag.FlagSet.Parse` with `ContinueOnError`: returns the arguments left
after the declared flags have been consumed, or the parse error. -/
def parseArgs (fs : List Flag) (args : List String) : Except GoError (List String) :=
  parseArgsFuel fs args.length args

/-- Replace each newline by newline plus four spaces and a tab, as
`PrintDefaults` does to usage strings. -/
def expandNLChars : List Char → List Char
  | [] => []
  | c :: cs =>
    if c = '\n' then '\n' :: ' ' :: ' ' :: ' ' :: ' ' :: '\t' :: expandNLChars cs
    else c :: expandNLChars cs

/-- The `PrintDefaults` line for one string flag: two-space indent, name,
` string` type hint, indented usage, and ` (default %q)` unless the default
is the zero value. -/
def flagDefaultLine (f : Flag) : String :=
  "  -" ++ f.name ++ " string\n    \t" ++ String.mk (expandNLChars f.usage.data) ++
    (if f.defVal = "" then "" else " (default " ++ goQuote f.defVal ++ ")") ++ "\n"

/-- Ordered insertion by flag name, modelling that `PrintDefaults` visits
flags in lexicographic name order. -/
def insertFlag (f : Flag) : List Flag → List Flag
  | [] => [f]
  | g :: gs => if strLe f.name g.name then f :: g :: gs else g :: insertFlag f gs

/-- Sort flags by name, as `flag.FlagSet.VisitAll` does. -/
def sortFlags : List Flag → List Flag
  | [] => []
  | f :: fs => insertFlag f (sortFlags fs)

/-- `flag.FlagSet.PrintDefaults`: the defaults block for a flag set. -/
def printDefaults (fs : List Flag) : String :=
  joinStr ((sortFlags fs).map flagDefaultLine)

/-! ### Commands and the Commander -/

/-- A `Command`: either a client-defined command (the `Command` interface,
a name, one-line description, long help text, flag declarations and a `Run`
method modelled as a function to an optional error) or the built-in help
command `helpCmd`, whose behavior reads the owning Commander's state. -/
inductive Command where
  | user (name desc helpText : String) (flags : List Flag)
      (run : List String → Option GoError)
  | helpC

/-- `Command.Name()`. -/
def Command.name : Command → String
  | .user nm _ _ _ _ => nm
  | .helpC => "help"

/-- `Command.Desc()`. -/
def Command.desc : Command → String
  | .user _ d _ _ _ => d
  | .helpC => "show help for commands"

/-- `Command.Help()` (the helpCmd case is the literal text from `sub.go`). -/
def Command.help : Command → String
  | .user _ _ h _ _ => h
  | .helpC =>
      "Usage: help [command]\n\nhelp displays a help summary for the entire set of commands or it\nshows more detailed help for a specific named subcommand."

/-- `Command.Flags(fset)`: the flags the command declares (helpCmd declares
none). -/
def Command.flags : Command → List Flag
  | .user _ _ _ fs _ => fs
  | .helpC => []

/-- A `Commander`: long help text, optional global-flag declarator (a `nil`
function is `none`; a declarator registering the flags `fs` is `some fs`),
the invocation name captured by `Run`, and the command registry. The output
sink is modelled by returning written text, not stored here. -/
structure Commander where
  Help : String := ""
  Flags : Option (List Flag) := none
  name : String := ""
  commands : List Command := []

/-- Out-of-range placeholder for indexed access (never reached by
`sort.Search`, which only probes indices below the length). -/
def defaultCmd : Command := .helpC

/-- The loop of Go's `sort.Search`: binary search for the least index in
`[i, j)` at which `f` holds (`j` when there is none). The probe
`int(uint(i+j) >> 1)` is `(i + j) / 2` (no overflow arises at these
sizes). Fuel bounds the iteration count; `j - i` iterations always
suffice since the gap shrinks every round. -/
def searchLoop (f : Nat → Bool) : Nat → Nat → Nat → Nat
  | 0, i, _ => i
  | fuel + 1, i, j =>
    if i < j then
      if f ((i + j) / 2) then searchLoop f fuel i ((i + j) / 2)
      else searchLoop f fuel ((i + j) / 2 + 1) j
    else i

/-- `sort.Search(n, f)`. -/
def sortSearch (n : Nat) (f : Nat → Bool) : Nat := searchLoop f n 0 n

/-- `Commander.Register`: `sort.Search` with predicate
`cmd.Name() < commands[i].Name()`, then either overwrite at the found index
(when the name there equals `cmd`'s) or insert at it. -/
def register (cmds : List Command) (cmd : Command) : List Command :=
  let i := sortSearch cmds.length (fun k => strLt cmd.name (cmds.getD k defaultCmd).name)
  if i < cmds.length ∧ cmd.name = (cmds.getD i defaultCmd).name then
    cmds.set i cmd
  else
    cmds.take i ++ cmd :: cmds.drop i

/-- The registry after a sequence of `Register` calls on a fresh Commander. -/
def registerAll (seq : List Command) : List Command :=
  seq.foldl register []

/-- `Commander.get`: linear scan returning the first command with the given
name, or `none` (Go `nil`). -/
def getCmd : List Command → String → Option Command
  | [], _ => none
  | cmd :: rest, nm => if cmd.name = nm then some cmd else getCmd rest nm

/-- `Commander.Register` as a method. -/
def Commander.Register (c : Commander) (cmd : Command) : Commander :=
  { c with commands := register c.commands cmd }

/-- The Commander with the invocation name captured (`c.name = args[0]`). -/
def Commander.withName (c : Commander) (a0 : String) : Commander :=
  { c with name := a0 }

/-! ### Help rendering (`helpCmd.Run`) -/

/-- The name used in the usage line: the captured invocation name, or the
process name (`filepath.Base(os.Args[0])`, passed in as `osBase`) when no
`Run` has set one. -/
def resolveName (c : Commander) (osBase : String) : String :=
  if c.name = "" then osBase else c.name

/-- One line of the summary `Commands:` listing. -/
def commandLine (cmd : Command) : String :=
  "\t" ++ cmd.name ++ "\t\t" ++ cmd.desc ++ "\n"

/-- The `Commands:` block of summary help, in registry order. -/
def commandsPart (c : Commander) : String :=
  "\nCommands:\n" ++ joinStr (c.commands.map commandLine)

/-- The trimmed long help text block of summary help (empty when unset). -/
def helpTextPart (c : Commander) : String :=
  if c.Help ≠ "" then "\n" ++ trimSpace c.Help ++ "\n" else ""

/-- The `Global Options:` block of summary help; absent when no global-flag
declarator is configured. -/
def globalOptionsPart (c : Commander) : String :=
  match c.Flags with
  | none => ""
  | some fs => "\nGlobal Options:\n" ++ printDefaults fs

/-- The summary usage line; ` [global options]` appears exactly when a
global-flag declarator is configured. -/
def usageLine (c : Commander) (osBase : String) : String :=
  "Usage: " ++ resolveName c osBase ++
    (if c.Flags.isSome then " [global options]" else "") ++
    " <subcommand> [subcommand arguments]\n"

/-- Summary-mode help (`helpCmd.Run` with no arguments): usage line, help
text, global options, command listing. -/
def helpSummaryText (c : Commander) (osBase : String) : String :=
  usageLine c osBase ++ helpTextPart c ++ globalOptionsPart c ++ commandsPart c

/-- Detail-mode help for a known command: its trimmed long help text when
non-empty, then an `Options:` block exactly when the rendered defaults for
its flags are non-empty. -/
def detailText (cmd : Command) : String :=
  (if cmd.help ≠ "" then trimSpace cmd.help ++ "\n" else "") ++
    (if 0 < (printDefaults cmd.flags).length then
      "\nOptions:\n" ++ printDefaults cmd.flags
    else "")

/-- `helpCmd.Run`: output written to the Commander's sink, and the returned
error (`flag.ErrHelp` exactly when a named command is unknown). -/
def helpRun (c : Commander) (osBase : String) (args : List String) :
    String × Option GoError :=
  match args with
  | [] => (helpSummaryText c osBase, none)
  | nm :: _ =>
    match getCmd c.commands nm with
    | none =>
        ("Error: No such command: " ++ goQuote nm ++ "\n\n" ++ helpSummaryText c osBase,
          some .errHelp)
    | some cmd => (detailText cmd, none)

/-! ### Dispatch (`Commander.Run`) -/

/-- What one `Commander.Run` call did: the text written to the output sink,
the commands whose `Run` method was invoked (with their leftover
arguments), and the returned error (`none` = nil). -/
structure RunOut where
  output : String
  executed : List (String × List String)
  ret : Option GoError

/-- Invoking a command's `Run` method: a user command runs its own
function; the built-in help command renders against the owning Commander's
current state. -/
def runCommand (c : Commander) (osBase : String) :
    Command → List String → String × Option GoError
  | .user _ _ _ _ r, args => ("", r args)
  | .helpC, args => helpRun c osBase args

/-- The body of `Commander.Run` after `c.name = args[0]` is known to be in
bounds: global parse, `NArg() == 0` check, registry lookup, subcommand
parse, dispatch. On parse failures the flag package invokes the installed
`Usage` (summary help for the global set, that command's detail help for
the subcommand set) before the error is returned. -/
def Commander.runCore (c0 : Commander) (osBase : String) (a0 : String)
    (rest : List String) : Commander × RunOut :=
  let c := c0.withName a0
  match parseArgs (c.Flags.getD []) rest with
  | .error e => (c, ⟨helpSummaryText c osBase, [], some e⟩)
  | .ok remaining =>
    match remaining with
    | [] => (c, ⟨helpSummaryText c osBase, [], some .errHelp⟩)
    | nm :: subArgs =>
      match getCmd c.commands nm with
      | none =>
          (c, ⟨"Error: No such command: " ++ goQuote nm ++ "\n\n" ++
                helpSummaryText c osBase, [], some .errHelp⟩)
      | some cmd =>
        match parseArgs cmd.flags subArgs with
        | .error e => (c, ⟨(helpRun c osBase [cmd.name]).1, [], some e⟩)
        | .ok cmdArgs =>
            (c, ⟨(runCommand c osBase cmd cmdArgs).1, [(cmd.name, cmdArgs)],
              (runCommand c osBase cmd cmdArgs).2⟩)

/-- `Commander.Run`: reads `args[0]` unconditionally, so the empty argument
list makes the Go code panic with an index-out-of-range — modelled as
`none`. Otherwise returns the mutated Commander and what the run did. -/
def Commander.run (c : Commander) (osBase : String) (args : List String) :
    Option (Commander × RunOut) :=
  match args with
  | [] => none
  | a0 :: rest => some (c.runCore osBase a0 rest)

/-! ### Fixtures from `sub_test.go`, anchoring the embedding -/

/-- The `testCmd` of `sub_test.go` (its `Run` writes to its own writer, not
the Commander's sink, and returns nil). -/
def testCmd : Command :=
  .user "test" "a simple test"
    "\nThis is just a simple test.\nNo, really. That's it.\nProbably.\n"
    [⟨"flag", "test", "a flag test"⟩]
    (fun _ => none)

/-- The Commander each test case of `TestSimpleCmd` constructs. -/
def testCommander : Commander :=
  { Help := "\nEven more help text.\n",
    commands := registerAll [Command.helpC, testCmd] }

example :  -- the "Simple Help" test case, byte for byte
    (testCommander.run "prog" ["subtest", "--help"]).map (fun p => (p.2.output, p.2.ret)) =
      some ("Usage: subtest <subcommand> [subcommand arguments]\n\nEven more help text.\n\nCommands:\n\thelp\t\tshow help for commands\n\ttest\t\ta simple test\n",
        some .errHelp) := by
  decide

example :  -- the "Subcommand Help" test case, byte for byte
    (testCommander.run "prog" ["subtest", "test", "--help"]).map
        (fun p => (p.2.output, p.2.executed, p.2.ret)) =
      some ("This is just a simple test.\nNo, really. That's it.\nProbably.\n\nOptions:\n  -flag string\n    \ta flag test (default \"test\")\n",
        [], some .errHelp) := by
  decide

/-! ### Order lemmas for the string comparison -/

theorem charsLt_nil_false (cs : List Char) : charsLt cs [] = false := by
  cases cs <;> rfl

theorem charsLt_asymm :
    ∀ {a b : List Char}, charsLt a b = true → charsLt b a = false := by
  intro a
  induction a with
  | nil => intro b _; exact charsLt_nil_false b
  | cons x xs ih =>
    intro b hab
    cases b with
    | nil => simp [charsLt_nil_false] at hab
    | cons y ys =>
      by_cases hxy : x = y
      · subst hxy
        simp only [charsLt, if_pos rfl] at hab ⊢
        exact ih hab
      · simp only [charsLt, if_neg hxy, decide_eq_true_eq] at hab
        simp only [charsLt, if_neg (Ne.symm hxy), decide_eq_false_iff_not]
        exact not_lt_of_lt hab

theorem charsLt_eq_of_not_lt :
    ∀ {a b : List Char}, charsLt a b = false → charsLt b a = false → a = b := by
  intro a
  induction a with
  | nil =>
    intro b hab _
    cases b with
    | nil => rfl
    | cons y ys => simp [charsLt] at hab
  | cons x xs ih =>
    intro b hab hba
    cases b with
    | nil => simp [charsLt] at hba
    | cons y ys =>
      by_cases hxy : x = y
      · subst hxy
        simp only [charsLt, if_pos rfl] at hab hba
        rw [ih hab hba]
      · simp only [charsLt, if_neg hxy, decide_eq_false_iff_not] at hab
        simp only [charsLt, if_neg (Ne.symm hxy), decide_eq_false_iff_not] at hba
        exact absurd ((lt_trichotomy x y).resolve_left hab |>.resolve_left hxy) hba

theorem charsLt_trans :
    ∀ {a b c : List Char}, charsLt a b = true → charsLt b c = true →
      charsLt a c = true := by
  intro a
  induction a with
  | nil =>
    intro b c hab hbc
    cases b with
    | nil => simp [charsLt] at hab
    | cons y ys =>
      cases c with
      | nil => simp [charsLt_nil_false] at hbc
      | cons z zs => rfl
  | cons x xs ih =>
    intro b c hab hbc
    cases b with
    | nil => simp [charsLt_nil_false] at hab
    | cons y ys =>
      cases c with
      | nil => simp [charsLt_nil_false] at hbc
      | cons z zs =>
        by_cases hxy : x = y
        · subst hxy
          simp only [charsLt, if_pos rfl] at hab
          by_cases hyz : x = z
          · subst hyz
            simp only [charsLt, if_pos rfl] at hbc ⊢
            exact ih hab hbc
          · simpa only [charsLt, if_neg hyz] using hbc
        · simp only [charsLt, if_neg hxy, decide_eq_true_eq] at hab
          by_cases hyz : y = z
          · subst hyz
            simp only [charsLt, if_neg hxy, decide_eq_true_eq]
            exact hab
          · simp only [charsLt, if_neg hyz, decide_eq_true_eq] at hbc
            have hxz : x < z := lt_trans hab hbc
            simp only [charsLt, if_neg (ne_of_lt hxz), decide_eq_true_eq]
            exact hxz

theorem strLt_asymm {a b : String} (h : strLt a b = true) : strLt b a = false :=
  charsLt_asymm h

theorem strLt_trans {a b c : String} (hab : strLt a b = true)
    (hbc : strLt b c = true) : strLt a c = true :=
  charsLt_trans hab hbc

theorem strLt_eq_of_not_lt {a b : String} (hab : strLt a b = false)
    (hba : strLt b a = false) : a = b :=
  congrArg String.mk (charsLt_eq_of_not_lt hab hba)

theorem strLt_irrefl (a : String) : strLt a a = false := by
  cases h : strLt a a with
  | false => rfl
  | true => rw [← h]; exact charsLt_asymm h

theorem strLe_iff {a b : String} : strLe a b = true ↔ strLt b a = false := by
  simp [strLe]

theorem strLe_of_lt {a b : String} (h : strLt a b = true) : strLe a b = true :=
  strLe_iff.mpr (strLt_asymm h)

theorem strLe_refl (a : String) : strLe a a = true :=
  strLe_iff.mpr (strLt_irrefl a)

theorem strLt_of_le_ne {a b : String} (h : strLe a b = true) (hne : a ≠ b) :
    strLt a b = true := by
  rw [strLe_iff] at h
  cases hab : strLt a b with
  | true => rfl
  | false => exact absurd (strLt_eq_of_not_lt hab h) hne

theorem strLt_of_not_le {a b : String} (h : strLe a b = false) :
    strLt b a = true := by
  cases hba : strLt b a with
  | true => rfl
  | false => rw [strLe_iff.mpr hba] at h; exact absurd h (by simp)

theorem strLe_trans {a b c : String} (hab : strLe a b = true)
    (hbc : strLe b c = true) : strLe a c = true := by
  rw [strLe_iff] at hab hbc ⊢
  cases hca : strLt c a with
  | false => rfl
  | true =>
    cases hbc' : strLt b c with
    | true =>
      have h2 := strLt_trans hbc' hca
      rw [h2] at hab; simp at hab
    | false =>
      rw [strLt_eq_of_not_lt hbc' hbc] at hab
      rw [hca] at hab; simp at hab

theorem strLt_of_lt_of_le {a b c : String} (hab : strLt a b = true)
    (hbc : strLe b c = true) : strLt a c = true := by
  rw [strLe_iff] at hbc
  cases hca : strLt c a with
  | true =>
    have h2 := strLt_trans hca hab
    rw [h2] at hbc; simp at hbc
  | false =>
    cases hac : strLt a c with
    | true => rfl
    | false =>
      rw [strLt_eq_of_not_lt hac hca] at hab
      rw [hab] at hbc; simp at hbc

/-! ### Correctness of the `sort.Search` model on monotone predicates -/

theorem searchLoop_spec (f : Nat → Bool) (n : Nat)
    (mono : ∀ k l, k ≤ l → l < n → f k = true → f l = true) :
    ∀ fuel i j, j - i ≤ fuel → i ≤ j → j ≤ n →
      (∀ k, k < i → f k = false) → (∀ k, j ≤ k → k < n → f k = true) →
      searchLoop f fuel i j ≤ n ∧
        (∀ k, k < searchLoop f fuel i j → f k = false) ∧
        (∀ k, searchLoop f fuel i j ≤ k → k < n → f k = true) := by
  intro fuel
  induction fuel with
  | zero =>
    intro i j hfuel hij hjn hlo hhi
    have hij' : i = j := by omega
    subst hij'
    exact ⟨hjn, hlo, hhi⟩
  | succ fuel ih =>
    intro i j hfuel hij hjn hlo hhi
    by_cases hlt : i < j
    · simp only [searchLoop, if_pos hlt]
      cases hf : f ((i + j) / 2) with
      | true =>
        simp only [if_pos rfl]
        exact ih i ((i + j) / 2) (by omega) (by omega) (by omega) hlo
          (fun k hk hkn => mono _ k hk hkn hf)
      | false =>
        rw [if_neg (by simp [hf])]
        refine ih ((i + j) / 2 + 1) j (by omega) (by omega) hjn ?_ hhi
        intro k hk
        by_cases hki : k < i
        · exact hlo k hki
        · cases hfk : f k with
          | false => rfl
          | true =>
            have h2 : f ((i + j) / 2) = true := mono k _ (by omega) (by omega) hfk
            rw [h2] at hf; simp at hf
    · simp only [searchLoop, if_neg hlt]
      have hij' : i = j := by omega
      subst hij'
      exact ⟨hjn, hlo, hhi⟩

theorem sortSearch_spec (f : Nat → Bool) (n : Nat)
    (mono : ∀ k l, k ≤ l → l < n → f k = true → f l = true) :
    sortSearch n f ≤ n ∧ (∀ k, k < sortSearch n f → f k = false) ∧
      (∀ k, sortSearch n f ≤ k → k < n → f k = true) :=
  searchLoop_spec f n mono n 0 n (by omega) (by omega) le_rfl
    (fun k hk => absurd hk (Nat.not_lt_zero k)) (fun k hk hkn => absurd hkn (by omega))

/-! ### `Register` behaves as ordered insertion on a sorted registry -/

/-- Name order between commands, as a proposition. -/
def cmdLE (a b : Command) : Prop := strLe a.name b.name = true

/-- Plain ordered insertion: descend past entries whose name is `≤` the new
name, then place the new command. On a sorted registry this is exactly what
`register` computes (`register_eq_insertCmd`). -/
def insertCmd (cmd : Command) : List Command → List Command
  | [] => [cmd]
  | x :: xs => if strLe x.name cmd.name then x :: insertCmd cmd xs else cmd :: x :: xs

theorem takeDrop_eq_insertCmd (cmd : Command) :
    ∀ (cmds : List Command) (r : Nat), r ≤ cmds.length →
      (∀ k, k < r → strLe (cmds.getD k defaultCmd).name cmd.name = true) →
      (r < cmds.length → strLt cmd.name (cmds.getD r defaultCmd).name = true) →
      cmds.take r ++ cmd :: cmds.drop r = insertCmd cmd cmds := by
  intro cmds
  induction cmds with
  | nil =>
    intro r hr _ _
    have hr0 : r = 0 := by simpa using hr
    subst hr0
    rfl
  | cons x xs ih =>
    intro r hr hle hgt
    cases r with
    | zero =>
      have hx : strLt cmd.name x.name = true := by
        simpa using hgt (by simp)
      simp only [List.take_zero, List.drop_zero, List.nil_append, insertCmd]
      rw [if_neg]
      intro hcon
      rw [strLe_iff.mp hcon] at hx
      simp at hx
    | succ r' =>
      have hx : strLe x.name cmd.name = true := by
        simpa using hle 0 (Nat.succ_pos r')
      simp only [List.take_succ_cons, List.drop_succ_cons, List.cons_append,
        insertCmd, if_pos hx]
      congr 1
      refine ih r' (by simpa using hr) ?_ ?_
      · intro k hk
        simpa using hle (k + 1) (by omega)
      · intro h
        simpa using hgt (by simpa using h)

theorem pairwise_getD_le (cmds : List Command) (hs : cmds.Pairwise cmdLE) :
    ∀ k l, k ≤ l → l < cmds.length →
      strLe (cmds.getD k defaultCmd).name (cmds.getD l defaultCmd).name = true := by
  intro k l hkl hln
  rcases eq_or_lt_of_le hkl with heq | hlt
  · subst heq; exact strLe_refl _
  · have hk : k < cmds.length := lt_trans hlt hln
    have := (List.pairwise_iff_get.mp hs) ⟨k, hk⟩ ⟨l, hln⟩ hlt
    rw [List.getD_eq_get? cmds k, List.getD_eq_get? cmds l,
      List.get?_eq_get hk, List.get?_eq_get hln] at *
    simpa using this

theorem register_eq_insertCmd (cmds : List Command) (cmd : Command)
    (hs : cmds.Pairwise cmdLE) :
    register cmds cmd = insertCmd cmd cmds := by
  have mono : ∀ k l, k ≤ l → l < cmds.length →
      strLt cmd.name (cmds.getD k defaultCmd).name = true →
      strLt cmd.name (cmds.getD l defaultCmd).name = true := by
    intro k l hkl hln hfk
    exact strLt_of_lt_of_le hfk (pairwise_getD_le cmds hs k l hkl hln)
  obtain ⟨hrn, hlo, hhi⟩ := sortSearch_spec
    (fun k => strLt cmd.name (cmds.getD k defaultCmd).name) cmds.length mono
  simp only [register]
  rw [if_neg]
  · exact takeDrop_eq_insertCmd cmd cmds _ hrn
      (fun k hk => strLe_iff.mpr (hlo k hk)) (fun h => hhi _ le_rfl h)
  · rintro ⟨hlt, heq⟩
    have h2 := hhi _ le_rfl hlt
    rw [← heq, strLt_irrefl] at h2
    simp at h2

theorem insertCmd_mem {y cmd : Command} :
    ∀ {l : List Command}, y ∈ insertCmd cmd l → y = cmd ∨ y ∈ l := by
  intro l
  induction l with
  | nil => intro h; simpa [insertCmd] using h
  | cons x xs ih =>
    intro h
    simp only [insertCmd] at h
    by_cases hx : strLe x.name cmd.name = true
    · rw [if_pos hx] at h
      rcases List.mem_cons.mp h with h1 | h2
      · exact Or.inr (by simp [h1])
      · rcases ih h2 with h3 | h4
        · exact Or.inl h3
        · exact Or.inr (by simp [h4])
    · rw [if_neg hx] at h
      rcases List.mem_cons.mp h with h1 | h2
      · exact Or.inl h1
      · exact Or.inr h2

theorem insertCmd_pairwise {cmd : Command} :
    ∀ {l : List Command}, l.Pairwise cmdLE → (insertCmd cmd l).Pairwise cmdLE := by
  intro l
  induction l with
  | nil => intro _; simp [insertCmd, cmdLE]
  | cons x xs ih =>
    intro h
    rw [List.pairwise_cons] at h
    obtain ⟨hx, hxs⟩ := h
    simp only [insertCmd]
    by_cases hcase : strLe x.name cmd.name = true
    · rw [if_pos hcase]
      rw [List.pairwise_cons]
      refine ⟨?_, ih hxs⟩
      intro y hy
      rcases insertCmd_mem hy with h1 | h2
      · subst h1; exact hcase
      · exact hx y h2
    · rw [if_neg hcase]
      have hlt : strLt cmd.name x.name = true := strLt_of_not_le (by simpa using hcase)
      rw [List.pairwise_cons]
      refine ⟨?_, List.pairwise_cons.mpr ⟨hx, hxs⟩⟩
      intro y hy
      rcases List.mem_cons.mp hy with h1 | h2
      · subst h1; exact strLe_of_lt hlt
      · exact strLe_trans (strLe_of_lt hlt) (hx y h2)

theorem foldl_register_pairwise (seq : List Command) :
    ∀ acc : List Command, acc.Pairwise cmdLE →
      (seq.foldl register acc).Pairwise cmdLE := by
  induction seq with
  | nil => intro acc h; exact h
  | cons cmd rest ih =>
    intro acc h
    rw [List.foldl_cons, register_eq_insertCmd acc cmd h]
    exact ih _ (insertCmd_pairwise h)

theorem registerAll_pairwise (seq : List Command) :
    (registerAll seq).Pairwise cmdLE :=
  foldl_register_pairwise seq [] List.Pairwise.nil

/-! ### Small facts used by the claim theorems -/

@[simp] theorem withName_Flags (c : Commander) (a0 : String) :
    (c.withName a0).Flags = c.Flags := rfl

@[simp] theorem withName_Help (c : Commander) (a0 : String) :
    (c.withName a0).Help = c.Help := rfl

@[simp] theorem withName_commands (c : Commander) (a0 : String) :
    (c.withName a0).commands = c.commands := rfl

@[simp] theorem withName_name (c : Commander) (a0 : String) :
    (c.withName a0).name = a0 := rfl

theorem getCmd_name : ∀ {l : List Command} {nm : String} {cmd : Command},
    getCmd l nm = some cmd → cmd.name = nm := by
  intro l
  induction l with
  | nil => intro nm cmd h; simp [getCmd] at h
  | cons x xs ih =>
    intro nm cmd h
    simp only [getCmd] at h
    by_cases hx : x.name = nm
    · rw [if_pos hx] at h
      exact (Option.some.inj h) ▸ hx
    · rw [if_neg hx] at h
      exact ih h

theorem parseArgs_stop (fs : List Flag) (nm : String) (rest : List String)
    (h : isFlagToken nm = false) :
    parseArgs fs (nm :: rest) = .ok (nm :: rest) := by
  simp [parseArgs, parseArgsFuel, parseStep, h]

theorem insertFlag_ne_nil (f : Flag) (l : List Flag) : insertFlag f l ≠ [] := by
  cases l with
  | nil => simp [insertFlag]
  | cons g gs =>
    simp only [insertFlag]
    by_cases hc : strLe f.name g.name = true
    · rw [if_pos hc]; simp
    · rw [if_neg hc]; simp

theorem flagDefaultLine_length_pos (f : Flag) : 0 < (flagDefaultLine f).length := by
  have h3 : ("  -" : String).length = 3 := rfl
  simp [flagDefaultLine, String.length_append, h3]

theorem printDefaults_pos_iff (fs : List Flag) :
    0 < (printDefaults fs).length ↔ fs ≠ [] := by
  cases fs with
  | nil => simp [printDefaults, sortFlags, joinStr]
  | cons f rest =>
    simp only [ne_eq, reduceCtorEq, not_false_eq_true, iff_true]
    have hne : sortFlags (f :: rest) ≠ [] := insertFlag_ne_nil f (sortFlags rest)
    obtain ⟨g, gs, hg⟩ := List.exists_cons_of_ne_nil hne
    simp only [printDefaults, hg, List.map_cons, joinStr, String.length_append]
    have := flagDefaultLine_length_pos g
    omega

/-! ### Claim theorems -/

/-- Two distinct commands sharing the name `"a"`, exercising re-registration. -/
def dupFirst : Command := .user "a" "first" "" [] (fun _ => none)

/-- The later registration under the same name `"a"`. -/
def dupSecond : Command := .user "a" "second" "" [] (fun _ => none)

/-- C1: evaluating `Register` at a re-registered name. The claim (and the
doc comment on `Register` itself) says the existing entry is replaced in
place, never duplicated, and lookup then finds the most recent
registration. The code instead inserts a second entry after the existing
one — `sort.Search` runs on `cmd.Name() < commands[i].Name()`, so it
returns the upper bound, where the name never matches and the replace
branch never fires — and `get` then returns the first (oldest)
registration. -/
theorem register_same_name_duplicates :
    (registerAll [dupFirst, dupSecond]).map Command.name = ["a", "a"] ∧
      registerAll [dupFirst, dupSecond] = [dupFirst, dupSecond] ∧
      getCmd (registerAll [dupFirst, dupSecond]) "a" = some dupFirst :=
  ⟨by decide, rfl, rfl⟩

/-- C2: after any sequence of `Register` calls on a fresh Commander, in any
order and with any names, the registry is sorted lexicographically by name,
and the summary-help `Commands:` block renders exactly that registry order,
so listing is in lexicographic name order regardless of registration
order. -/
theorem registry_listing_sorted (seq : List Command) :
    ((registerAll seq).map Command.name).Pairwise (fun a b => strLe a b = true) ∧
      ∀ (H : String) (F : Option (List Flag)) (N : String),
        commandsPart ⟨H, F, N, registerAll seq⟩ =
          "\nCommands:\n" ++ joinStr ((registerAll seq).map commandLine) := by
  constructor
  · exact List.pairwise_map.mpr (registerAll_pairwise seq)
  · intro H F N; rfl

/-- C10: `Run` reads `args[0]` before anything else, so it has the implicit
precondition that the argument list is non-empty: on the empty list the Go
code panics with an index-out-of-range (modelled as `none`, not an error
return), and on every non-empty list the access is in bounds and `Run`
proceeds normally. -/
theorem run_empty_args_panics (c : Commander) (osBase : String) :
    c.run osBase [] = none ∧
      ∀ args : List String, args ≠ [] → (c.run osBase args).isSome = true := by
  refine ⟨rfl, ?_⟩
  intro args hne
  cases args with
  | nil => exact absurd rfl hne
  | cons a rest => rfl

/-- Witness for `run_empty_args_panics` at a concrete Commander and input. -/
theorem run_empty_args_panics_witness :
    ({} : Commander).run "prog" [] = none ∧
      (["prog"] : List String) ≠ [] ∧
      (({} : Commander).run "prog" ["prog"]).isSome = true :=
  ⟨(run_empty_args_panics {} "prog").1, by decide,
    (run_empty_args_panics {} "prog").2 ["prog"] (by decide)⟩

/-- C3: when nothing remains after global-flag parsing (in particular when
the argument list holds only the invocation name), `Run` writes the summary
help to the output sink, returns `flag.ErrHelp`, and executes no command. -/
theorem run_no_args_shows_help (c : Commander) (osBase a0 : String)
    (gargs : List String)
    (h : parseArgs (c.Flags.getD []) gargs = .ok []) :
    c.run osBase (a0 :: gargs) =
      some (c.withName a0,
        ⟨helpSummaryText (c.withName a0) osBase, [], some .errHelp⟩) := by
  simp only [Commander.run, Commander.runCore, withName_Flags, h]

/-- Witness for `run_no_args_shows_help`: `run(["subtest"])` on the test
Commander. -/
theorem run_no_args_shows_help_witness :
    parseArgs (testCommander.Flags.getD []) [] = .ok [] ∧
      testCommander.run "prog" ["subtest"] =
        some (testCommander.withName "subtest",
          ⟨helpSummaryText (testCommander.withName "subtest") "prog", [],
            some .errHelp⟩) :=
  ⟨rfl, run_no_args_shows_help testCommander "prog" "subtest" [] rfl⟩

/-- C4: for a name absent from the registry, both dispatch
(`Commander.Run` with that name as the first non-flag argument) and detail
help (`helpCmd.Run` invoked with that name) write the
`Error: No such command: %q` notice followed by the summary help to the
output sink and return `flag.ErrHelp`, executing nothing. -/
theorem unknown_command_reports_and_helps (c : Commander) (osBase a0 bogus : String)
    (gargs more hargs : List String)
    (hparse : parseArgs (c.Flags.getD []) gargs = .ok (bogus :: more))
    (hget : getCmd c.commands bogus = none) :
    c.run osBase (a0 :: gargs) =
      some (c.withName a0,
        ⟨"Error: No such command: " ++ goQuote bogus ++ "\n\n" ++
            helpSummaryText (c.withName a0) osBase, [], some .errHelp⟩) ∧
      helpRun c osBase (bogus :: hargs) =
        ("Error: No such command: " ++ goQuote bogus ++ "\n\n" ++
            helpSummaryText c osBase, some .errHelp) := by
  constructor
  · simp only [Commander.run, Commander.runCore, withName_Flags, hparse,
      withName_commands, hget]
  · simp only [helpRun, hget]

/-- Witness for `unknown_command_reports_and_helps`:
`run(["subtest", "bogus"])` and `help bogus` on the test Commander. -/
theorem unknown_command_reports_and_helps_witness :
    parseArgs (testCommander.Flags.getD []) ["bogus"] = .ok ["bogus"] ∧
      getCmd testCommander.commands "bogus" = none ∧
      (testCommander.run "prog" ["subtest", "bogus"] =
        some (testCommander.withName "subtest",
          ⟨"Error: No such command: " ++ goQuote "bogus" ++ "\n\n" ++
              helpSummaryText (testCommander.withName "subtest") "prog", [],
            some .errHelp⟩) ∧
        helpRun testCommander "prog" ["bogus"] =
          ("Error: No such command: " ++ goQuote "bogus" ++ "\n\n" ++
              helpSummaryText testCommander "prog", some .errHelp)) :=
  ⟨rfl, rfl,
    unknown_command_reports_and_helps testCommander "prog" "subtest" "bogus"
      ["bogus"] [] [] rfl rfl⟩

/-- C5: once dispatch reaches the Execute stage (global parse succeeded,
lookup found a user command, its flag parse succeeded), `Commander.Run`
returns exactly the value the command's `Run` method returns — no
wrapping, replacement, retry or reinterpretation — and records exactly
that one execution. -/
theorem execute_result_verbatim (c : Commander) (osBase a0 nm n2 d h : String)
    (gargs subArgs cmdArgs : List String) (fs : List Flag)
    (r : List String → Option GoError)
    (hparse : parseArgs (c.Flags.getD []) gargs = .ok (nm :: subArgs))
    (hget : getCmd c.commands nm = some (.user n2 d h fs r))
    (hsub : parseArgs fs subArgs = .ok cmdArgs) :
    c.run osBase (a0 :: gargs) =
      some (c.withName a0, ⟨"", [(n2, cmdArgs)], r cmdArgs⟩) := by
  simp only [Commander.run, Commander.runCore, withName_Flags, hparse,
    withName_commands, hget, Command.flags, hsub, runCommand, Command.name]

/-- Witness for `execute_result_verbatim`: dispatching `test arg0` on the
test Commander invokes `testCmd` with `["arg0"]` and returns its nil
result unchanged. -/
theorem execute_result_verbatim_witness :
    parseArgs (testCommander.Flags.getD []) ["test", "arg0"] =
        .ok ["test", "arg0"] ∧
      getCmd testCommander.commands "test" =
        some (.user "test" "a simple test"
          "\nThis is just a simple test.\nNo, really. That's it.\nProbably.\n"
          [⟨"flag", "test", "a flag test"⟩] (fun _ => none)) ∧
      parseArgs [⟨"flag", "test", "a flag test"⟩] ["arg0"] = .ok ["arg0"] ∧
      testCommander.run "prog" ["subtest", "test", "arg0"] =
        some (testCommander.withName "subtest", ⟨"", [("test", ["arg0"])], none⟩) :=
  ⟨rfl, rfl, rfl,
    execute_result_verbatim testCommander "prog" "subtest" "test" "test"
      "a simple test"
      "\nThis is just a simple test.\nNo, really. That's it.\nProbably.\n"
      ["test", "arg0"] ["arg0"] ["arg0"] [⟨"flag", "test", "a flag test"⟩]
      (fun _ => none) rfl rfl rfl⟩

/-- C6: a failed flag parse — global or subcommand — makes `Run` return
the flag parser's own error value: the usage/help text (summary help for
the global set, that command's detail help for its set) is written to the
output sink and the parse result is returned as-is, so a malformed-input
error (anything other than `errHelp`) is never collapsed into the
help-requested sentinel. -/
theorem parse_error_returned_with_usage (c : Commander) (osBase a0 : String)
    (gargs : List String) (e : GoError) :
    (parseArgs (c.Flags.getD []) gargs = .error e →
      c.run osBase (a0 :: gargs) =
        some (c.withName a0,
          ⟨helpSummaryText (c.withName a0) osBase, [], some e⟩)) ∧
    (∀ (nm : String) (subArgs : List String) (cmd : Command),
      parseArgs (c.Flags.getD []) gargs = .ok (nm :: subArgs) →
      getCmd c.commands nm = some cmd →
      parseArgs cmd.flags subArgs = .error e →
      c.run osBase (a0 :: gargs) =
        some (c.withName a0,
          ⟨(helpRun (c.withName a0) osBase [cmd.name]).1, [], some e⟩)) ∧
    (e ≠ .errHelp → (some e : Option GoError) ≠ some .errHelp) := by
  refine ⟨?_, ?_, ?_⟩
  · intro h
    simp only [Commander.run, Commander.runCore, withName_Flags, h]
  · intro nm subArgs cmd hparse hget hsub
    simp only [Commander.run, Commander.runCore, withName_Flags, hparse,
      withName_commands, hget, hsub]
  · intro hne hcon
    exact hne (Option.some.inj hcon)

/-- Witness for `parse_error_returned_with_usage`: an undefined `-bogus`
flag, first in the global position, then after the `test` subcommand. -/
theorem parse_error_returned_with_usage_witness :
    parseArgs (testCommander.Flags.getD []) ["-bogus"] =
        .error (.notDefined "bogus") ∧
      testCommander.run "prog" ["subtest", "-bogus"] =
        some (testCommander.withName "subtest",
          ⟨helpSummaryText (testCommander.withName "subtest") "prog", [],
            some (.notDefined "bogus")⟩) ∧
      testCommander.run "prog" ["subtest", "test", "-bogus"] =
        some (testCommander.withName "subtest",
          ⟨(helpRun (testCommander.withName "subtest") "prog" [testCmd.name]).1,
            [], some (.notDefined "bogus")⟩) ∧
      (GoError.notDefined "bogus" ≠ .errHelp) :=
  ⟨rfl,
    (parse_error_returned_with_usage testCommander "prog" "subtest" ["-bogus"]
      (.notDefined "bogus")).1 rfl,
    (parse_error_returned_with_usage testCommander "prog" "subtest"
      ["test", "-bogus"] (.notDefined "bogus")).2.1 "test" ["-bogus"] testCmd
      rfl rfl rfl,
    by decide⟩

/-- C7: for a registered command with non-empty long help text, running the
Commander with that command's name followed by an explicit help flag (any
token its flag set parses as `flag.ErrHelp`) writes the trimmed help text,
then — exactly when the command declares at least one flag — the blank
line, `Options:` heading and that command's flag-defaults block, returns
`flag.ErrHelp`, and never invokes the command's `Run` method. -/
theorem detail_help_via_help_flag (c : Commander) (osBase a0 nm tok : String)
    (cmd : Command)
    (hnm : isFlagToken nm = false)
    (hget : getCmd c.commands nm = some cmd)
    (hhelp : cmd.help ≠ "")
    (htok : parseArgs cmd.flags [tok] = .error .errHelp) :
    c.run osBase [a0, nm, tok] =
      some (c.withName a0,
        ⟨trimSpace cmd.help ++ "\n" ++
            (if cmd.flags = [] then ""
             else "\nOptions:\n" ++ printDefaults cmd.flags),
          [], some .errHelp⟩) := by
  have hstop : parseArgs (c.Flags.getD []) [nm, tok] = .ok [nm, tok] :=
    parseArgs_stop _ nm [tok] hnm
  have hname : cmd.name = nm := getCmd_name hget
  have hget2 : getCmd c.commands cmd.name = some cmd := by rw [hname]; exact hget
  simp only [Commander.run, Commander.runCore, withName_Flags, hstop,
    withName_commands, hget, htok, helpRun, hget2, detailText]
  rw [if_pos hhelp]
  by_cases hfl : cmd.flags = []
  · rw [if_pos hfl]
    have hz : (printDefaults cmd.flags).length = 0 := by rw [hfl]; rfl
    rw [if_neg (by omega)]
  · rw [if_neg hfl, if_pos ((printDefaults_pos_iff cmd.flags).mpr hfl)]

/-- Witness for `detail_help_via_help_flag`: the "Subcommand Help" test
case, `run(["subtest", "test", "--help"])`. -/
theorem detail_help_via_help_flag_witness :
    isFlagToken "test" = false ∧
      getCmd testCommander.commands "test" = some testCmd ∧
      testCmd.help ≠ "" ∧
      parseArgs testCmd.flags ["--help"] = .error .errHelp ∧
      testCommander.run "prog" ["subtest", "test", "--help"] =
        some (testCommander.withName "subtest",
          ⟨trimSpace testCmd.help ++ "\n" ++
              (if testCmd.flags = [] then ""
               else "\nOptions:\n" ++ printDefaults testCmd.flags),
            [], some .errHelp⟩) :=
  ⟨by decide, rfl, by decide, rfl,
    detail_help_via_help_flag testCommander "prog" "subtest" "test" "--help"
      testCmd (by decide) rfl (by decide) rfl⟩

/-- C8: summary help's usage line is
`Usage: <invocation-name>[ [global options]] <subcommand> [subcommand arguments]`,
where the ` [global options]` fragment appears exactly when a global-flag
declarator is configured, and the `Global Options:` block likewise appears
exactly when one is configured — a nil declarator suppresses both. -/
theorem summary_sections (c : Commander) (osBase : String) :
    (c.Flags = none →
      helpSummaryText c osBase =
        "Usage: " ++ resolveName c osBase ++ " <subcommand> [subcommand arguments]\n"
          ++ helpTextPart c ++ commandsPart c) ∧
    (∀ fs, c.Flags = some fs →
      helpSummaryText c osBase =
        "Usage: " ++ resolveName c osBase ++ " [global options]"
          ++ " <subcommand> [subcommand arguments]\n"
          ++ helpTextPart c ++ "\nGlobal Options:\n" ++ printDefaults fs
          ++ commandsPart c) := by
  constructor
  · intro h
    simp only [helpSummaryText, usageLine, globalOptionsPart, h, Option.isSome_none,
      Bool.false_eq_true, if_false, String.append_empty]
  · intro fs h
    simp only [helpSummaryText, usageLine, globalOptionsPart, h, Option.isSome_some,
      if_true, String.append_assoc]

/-- A variant of the test Commander whose global-flag declarator registers
the flag `-v`. -/
def gflagCommander : Commander :=
  { testCommander with Flags := some [⟨"v", "", "a global flag test"⟩] }

/-- Witness for `summary_sections`: once without and once with a
global-flag declarator. -/
theorem summary_sections_witness :
    (testCommander.Flags = none ∧
      helpSummaryText testCommander "prog" =
        "Usage: " ++ resolveName testCommander "prog"
          ++ " <subcommand> [subcommand arguments]\n"
          ++ helpTextPart testCommander ++ commandsPart testCommander) ∧
    (gflagCommander.Flags = some [⟨"v", "", "a global flag test"⟩] ∧
      helpSummaryText gflagCommander "prog" =
        "Usage: " ++ resolveName gflagCommander "prog" ++ " [global options]"
          ++ " <subcommand> [subcommand arguments]\n"
          ++ helpTextPart gflagCommander ++ "\nGlobal Options:\n"
          ++ printDefaults [⟨"v", "", "a global flag test"⟩]
          ++ commandsPart gflagCommander) :=
  ⟨⟨rfl, (summary_sections testCommander "prog").1 rfl⟩,
    ⟨rfl, (summary_sections gflagCommander "prog").2
      [⟨"v", "", "a global flag test"⟩] rfl⟩⟩

/-- C9: summary help is a pure rendering of the observed Commander state —
for any two Commanders (or the same one at two instants) agreeing on
registry, help text, flag declarator and resolved invocation name, the
bytes written and the value returned are identical, so invoking summary
help twice with unchanged state produces byte-identical output. -/
theorem summary_help_deterministic (c1 c2 : Commander) (osB1 osB2 : String)
    (hcmds : c1.commands = c2.commands) (hhelp : c1.Help = c2.Help)
    (hflags : c1.Flags = c2.Flags)
    (hname : resolveName c1 osB1 = resolveName c2 osB2) :
    helpRun c1 osB1 [] = helpRun c2 osB2 [] := by
  simp only [helpRun, helpSummaryText, usageLine, helpTextPart, globalOptionsPart,
    commandsPart, hcmds, hhelp, hflags, hname]

/-- Witness for `summary_help_deterministic`: the test Commander before and
after a `Run` has captured the invocation name (resolved name unchanged). -/
theorem summary_help_deterministic_witness :
    testCommander.commands = (testCommander.withName "prog").commands ∧
      testCommander.Help = (testCommander.withName "prog").Help ∧
      testCommander.Flags = (testCommander.withName "prog").Flags ∧
      resolveName testCommander "prog" =
        resolveName (testCommander.withName "prog") "other" ∧
      helpRun testCommander "prog" [] =
        helpRun (testCommander.withName "prog") "other" [] :=
  ⟨rfl, rfl, rfl, by decide,
    summary_help_deterministic testCommander (testCommander.withName "prog")
      "prog" "other" rfl rfl rfl (by decide)⟩

end Sub
